import Mathlib

/-!
Verification of the outline parser and slide renderer of the
ai-presentation-agent repository against its specification.

The Python sources are shallowly embedded: strings are `List Char`,
Python dicts (which preserve insertion order) are association lists,
and the regular-expression substitutions of `llm_utils.py` are spelled
out as character-list scanners with the exact scan/replace semantics of
`re.sub` for the concrete patterns the source uses.
-/

namespace PPTAgent

/-! ### Python string primitives

`isPySpace` covers the characters `str.strip` / regex `\s` treat as
whitespace on the inputs of interest (ASCII whitespace plus the common
Unicode line/space separators Python recognises). -/

def isPySpace (c : Char) : Bool :=
  c = ' ' || c = '\t' || c = '\n' || Char.ofNat 13 = c || Char.ofNat 11 = c ||
  Char.ofNat 12 = c || Char.ofNat 28 = c || Char.ofNat 29 = c || Char.ofNat 30 = c ||
  Char.ofNat 133 = c || Char.ofNat 160 = c || Char.ofNat 8232 = c || Char.ofNat 8233 = c

/-- The line boundaries of Python `str.splitlines` (besides the `\r\n` pair). -/
def isLineBreakCh (c : Char) : Bool :=
  c = '\n' || Char.ofNat 13 = c || Char.ofNat 11 = c || Char.ofNat 12 = c ||
  Char.ofNat 28 = c || Char.ofNat 29 = c || Char.ofNat 30 = c ||
  Char.ofNat 133 = c || Char.ofNat 8232 = c || Char.ofNat 8233 = c

/-- Python `str.strip()`. -/
def stripL (s : List Char) : List Char :=
  ((s.dropWhile isPySpace).reverse.dropWhile isPySpace).reverse

/-- Python `str.lower()` (ASCII case folding, which is all the sources rely on). -/
def lowerL (s : List Char) : List Char := s.map Char.toLower

/-- Does `s` start with `pat`? (Python `str.startswith`.) -/
def startsWithL : List Char → List Char → Bool
  | [], _ => true
  | _ :: _, [] => false
  | p :: ps, c :: cs => p = c && startsWithL ps cs

/-- Does `s` end with `pat`? (Python `str.endswith`.) -/
def endsWithL (pat s : List Char) : Bool :=
  startsWithL pat.reverse s.reverse

/-- Python substring containment `pat in s`. -/
def isSubL (pat : List Char) : List Char → Bool
  | [] => pat.isEmpty
  | c :: rest => startsWithL pat (c :: rest) || isSubL pat rest

/-- Python `str.splitlines`: accumulator holds the current line reversed.
A final fragment with no trailing break still yields a line; a trailing
break yields none; `\r\n` is a single boundary. -/
def splitlinesAux : List Char → List Char → List (List Char)
  | [], acc => if acc.isEmpty then [] else [acc.reverse]
  | [c], acc =>
    if isLineBreakCh c then [acc.reverse]
    else [(c :: acc).reverse]
  | c :: d :: rest, acc =>
    if Char.ofNat 13 = c then
      if d = '\n' then acc.reverse :: splitlinesAux rest []
      else acc.reverse :: splitlinesAux (d :: rest) []
    else if isLineBreakCh c then acc.reverse :: splitlinesAux (d :: rest) []
    else splitlinesAux (d :: rest) (c :: acc)

def splitlines (s : List Char) : List (List Char) := splitlinesAux s []

/-! ### `clean_markdown` (src/llm_utils.py lines 206-225)

Each `re.sub` call is embedded as a left-to-right scanner: at each
position the pattern is attempted; on success the replacement is
emitted and scanning resumes after the match (the replacement is not
rescanned), otherwise one character is copied.  The scanners use a
character-count fuel which every step strictly decreases, so fuel
`s.length` realises the full scan. -/

/-- First occurrence of a literal `**`: returns the part before and after it. -/
def findStars2 : List Char → Option (List Char × List Char)
  | '*' :: '*' :: rest => some ([], rest)
  | c :: rest => (findStars2 rest).map (fun p => (c :: p.1, p.2))
  | [] => none

/-- First occurrence of a literal `*`: returns the part before and after it. -/
def findStar1 : List Char → Option (List Char × List Char)
  | '*' :: rest => some ([], rest)
  | c :: rest => (findStar1 rest).map (fun p => (c :: p.1, p.2))
  | [] => none

/-- `re.sub(r'\*\*(.*?)\*\*', r'\1', text)`: non-greedy, so the closing
`**` is the first one after the opening pair. -/
def subBoldF : Nat → List Char → List Char
  | 0, s => s
  | _ + 1, [] => []
  | n + 1, c :: rest =>
    if c = '*' && rest.head? = some '*' then
      match findStars2 rest.tail with
      | some (content, after) => content ++ subBoldF n after
      | none => c :: subBoldF n rest
    else c :: subBoldF n rest

def subBold (s : List Char) : List Char := subBoldF s.length s

/-- `re.sub(r'\*(.*?)\*', r'\1', text)`. -/
def subItalicF : Nat → List Char → List Char
  | 0, s => s
  | _ + 1, [] => []
  | n + 1, c :: rest =>
    if c = '*' then
      match findStar1 rest with
      | some (content, after) => content ++ subItalicF n after
      | none => c :: subItalicF n rest
    else c :: subItalicF n rest

def subItalic (s : List Char) : List Char := subItalicF s.length s

/-- `re.sub(r'#+\s*', '', text)`. -/
def subHashF : Nat → List Char → List Char
  | 0, s => s
  | _ + 1, [] => []
  | n + 1, c :: rest =>
    if c = '#' then
      subHashF n ((rest.dropWhile (fun d => d = '#')).dropWhile isPySpace)
    else c :: subHashF n rest

def subHash (s : List Char) : List Char := subHashF s.length s

/-- Match `\[([^\]]+)\]\([^)]+\)` at the head of the input; on success
return the first capture group and the remainder after the match. -/
def linkMatch : List Char → Option (List Char × List Char)
  | '[' :: rest =>
    let t := rest.takeWhile (fun c => c ≠ ']')
    match t, rest.drop t.length with
    | [], _ => none
    | _, ']' :: '(' :: r2 =>
      let u := r2.takeWhile (fun c => c ≠ ')')
      match u, r2.drop u.length with
      | [], _ => none
      | _, ')' :: r4 => some (t, r4)
      | _, _ => none
    | _, _ => none
  | _ => none

/-- `re.sub(r'\[([^\]]+)\]\([^)]+\)', r'\1', text)`. -/
def subLinkF : Nat → List Char → List Char
  | 0, s => s
  | _ + 1, [] => []
  | n + 1, c :: rest =>
    if c = '[' then
      match linkMatch (c :: rest) with
      | some (t, r4) => t ++ subLinkF n r4
      | none => c :: subLinkF n rest
    else c :: subLinkF n rest

def subLink (s : List Char) : List Char := subLinkF s.length s

/-- `re.sub(r'!\[([^\]]+)\]\([^)]+\)', '', text)`. -/
def subImageF : Nat → List Char → List Char
  | 0, s => s
  | _ + 1, [] => []
  | n + 1, c :: rest =>
    if c = '!' then
      match linkMatch rest with
      | some (_, r4) => subImageF n r4
      | none => c :: subImageF n rest
    else c :: subImageF n rest

def subImage (s : List Char) : List Char := subImageF s.length s

/-- `re.sub(r'\s+', ' ', text)`. -/
def squeezeWsF : Nat → List Char → List Char
  | 0, s => s
  | _ + 1, [] => []
  | n + 1, c :: rest =>
    if isPySpace c then ' ' :: squeezeWsF n (rest.dropWhile isPySpace)
    else c :: squeezeWsF n rest

def squeezeWs (s : List Char) : List Char := squeezeWsF s.length s

/-- src/llm_utils.py `clean_markdown`, lines 206-225: the five
substitutions in source order, then whitespace normalisation and strip.
The `if not text` early return is the `[]` guard. -/
def clean_markdown (text : List Char) : List Char :=
  if text = [] then text
  else stripL (squeezeWs (subImage (subLink (subHash (subItalic (subBold text))))))

/-! ### Data model: bullets and insertion-ordered outlines -/

/-- One parsed bullet point: `{"text": ..., "level": ...}`. -/
structure Bullet where
  text : String
  level : Nat
deriving DecidableEq, Repr

/-- A Python dict `str -> list[bullet]` as an insertion-ordered association
list.  `dictInsert` mirrors `d[k] = v`: an existing key keeps its position
and gets the new value, a new key is appended at the end. -/
abbrev Outline := List (String × List Bullet)

def olookup : Outline → String → Option (List Bullet)
  | [], _ => none
  | (k2, v) :: rest, k => if k2 = k then some v else olookup rest k

def dictInsert (o : Outline) (k : String) (v : List Bullet) : Outline :=
  if o.any (fun p => p.1 = k) then o.map (fun p => if p.1 = k then (k, v) else p)
  else o ++ [(k, v)]

/-! ### `process_bullet_points` (src/llm_utils.py lines 177-204) -/

/-- `re.sub(r'^[•\-*]\s+', '', cleaned)`. -/
def stripBulletMark : List Char → List Char
  | [] => []
  | c :: rest =>
    if c = '•' || c = '-' || c = '*' then
      match rest with
      | d :: _ => if isPySpace d then rest.dropWhile isPySpace else c :: rest
      | [] => [c]
    else c :: rest

/-- `re.sub(r'^\d+[\.\)]\s+', '', cleaned)`. -/
def stripNumMark (s : List Char) : List Char :=
  let ds := s.takeWhile Char.isDigit
  if ds = [] then s
  else
    match s.drop ds.length with
    | c :: rest =>
      if c = '.' || c = ')' then
        match rest with
        | d :: _ => if isPySpace d then rest.dropWhile isPySpace else s
        | [] => s
      else s
    | [] => s

/-- One iteration of the `for line in content_lines` loop of
`process_bullet_points`: skip blank lines, compute the indentation level
from the leading-whitespace count (`len(line) - len(line.lstrip())`,
2 spaces = 1 level, clamped by `max(0, min(level, 3))`), clean the
stripped line, drop it if nothing remains. -/
def bulletStep (bullets : List Bullet) (line : List Char) : List Bullet :=
  if stripL line = [] then bullets
  else
    if stripNumMark (stripBulletMark (clean_markdown (stripL line))) = [] then bullets
    else bullets ++
      [⟨String.mk (stripNumMark (stripBulletMark (clean_markdown (stripL line)))),
        max 0 (min ((line.takeWhile isPySpace).length / 2) 3)⟩]

/-- src/llm_utils.py `process_bullet_points`, lines 177-204. -/
def process_bullet_points (content_lines : List (List Char)) : List Bullet :=
  content_lines.foldl bulletStep []

/-! ### The slide-title pattern and main-title detection -/

/-- `re.match(r'^\s*(?:\*\*([^*]+)\*\*|#\s+([^#]+))$', line)` followed by
`.strip()` of the captured group (src/llm_utils.py lines 236, 276-281).
Returns the stripped slide title on a match. -/
def matchSlideTitle (line : List Char) : Option String :=
  let s := line.dropWhile isPySpace
  match s with
  | '*' :: '*' :: rest =>
    let x := rest.takeWhile (fun c => c ≠ '*')
    if x ≠ [] && rest.drop x.length = ['*', '*'] then some (String.mk (stripL x)) else none
  | '#' :: rest =>
    let w := rest.takeWhile isPySpace
    let y := rest.drop w.length
    if w ≠ [] && y ≠ [] && y.all (fun c => c ≠ '#') then some (String.mk (stripL y)) else none
  | _ => none

def apos : Char := Char.ofNat 39

/-- The `intro_phrases` list of src/llm_utils.py lines 241-245. -/
def intro_phrases : List (List Char) :=
  ["here is".toList, "this is".toList, "below is".toList, "following is".toList,
   "presentation outline".toList, "outline for".toList, "generated outline".toList,
   "i have".toList, ('i' :: apos :: "ve created".toList), "the following".toList]

def title_prefixes : List (List Char) :=
  ["#".toList, "*".toList, "-".toList, "•".toList, "1.".toList, "2.".toList, "3.".toList]

/-- `re.match(r'^\d+\.', line)` as a Bool. -/
def numDotStart (s : List Char) : Bool :=
  let ds := s.takeWhile Char.isDigit
  !ds.isEmpty && (s.drop ds.length).head? = some '.'

/-- `re.match(r'^[•\-*]', line)` as a Bool. -/
def bulletStart (s : List Char) : Bool :=
  s.head? = some '•' || s.head? = some '-' || s.head? = some '*'

/-- The size/shape filter of src/llm_utils.py lines 259-263 for a
candidate main-title line (already stripped and nonempty). -/
def titleCandidateCond (l : List Char) : Bool :=
  decide (3 < l.length) && decide (l.length < 80) &&
  !(title_prefixes.any (fun p => startsWithL p l)) &&
  !(endsWithL ":".toList l || endsWithL "-".toList l) &&
  !numDotStart l && !bulletStart l

/-- The title-detection pass of src/llm_utils.py lines 247-267: the first
non-blank line that carries no LLM intro phrase and passes the filter is
cleaned and taken as the main title. -/
def findMainTitle : List (List Char) → Option (List Char)
  | [] => none
  | l :: rest =>
    let s := stripL l
    if s = [] then findMainTitle rest
    else if intro_phrases.any (fun p => isSubL p (lowerL s)) then findMainTitle rest
    else if titleCandidateCond s then some (clean_markdown s)
    else findMainTitle rest

/-! ### The slide-accumulation loop (src/llm_utils.py lines 270-298) -/

structure PState where
  current : Option String
  content : List (List Char)
  outline : Outline
deriving Repr

/-- Flushing the buffered slide: `if current_slide and slide_content:`
(Python truthiness: `None` and `""` both fail) then
`outline[current_slide] = process_bullet_points(slide_content)`. -/
def flushState (st : PState) : Outline :=
  match st.current with
  | some t => if t ≠ "" && st.content ≠ [] then dictInsert st.outline t (process_bullet_points st.content)
              else st.outline
  | none => st.outline

/-- One iteration of the `for` loop at lines 270-294: strip the line, skip
blanks, open a new slide on a title match (flushing the previous one), or
buffer the stripped line as content when a slide is open. -/
def stepLine (st : PState) (raw : List Char) : PState :=
  if stripL raw = [] then st
  else
    match matchSlideTitle (stripL raw) with
    | some t => ⟨some t, [], flushState st⟩
    | none =>
      match st.current with
      | some _ => ⟨st.current, st.content ++ [stripL raw], st.outline⟩
      | none => st

/-! ### Convenience views of the parser pipeline used by the theorems -/

/-- The slide-accumulation loop run over a list of raw lines. -/
def runLines (lines : List (List Char)) (st : PState) : PState :=
  lines.foldl stepLine st

/-- The slide-title the loop would extract from a raw line, if any. -/
def headerTitle (raw : List Char) : Option String :=
  matchSlideTitle (stripL raw)

/-- A raw line the loop skips as blank. -/
def isBlankLine (raw : List Char) : Bool := stripL raw = []

/-! ### Post-processing (src/llm_utils.py lines 300-328) -/

def introSub : List Char := "introduction".toList

/-- The fallback main title of lines 300-312: first section title not
containing `introduction`, else the first section title, else
`"Presentation"`. -/
def fallbackTitle (o : Outline) : String :=
  match (o.map Prod.fst).find? (fun k => !(isSubL introSub (lowerL k.toList))) with
  | some k => k
  | none => (o.map Prod.fst).headD "Presentation"

/-- The rename loop of lines 316-320: `outline.pop(key)` on the first key
containing `introduction`, then `outline["Introduction"] = value`, which
appends the fresh key at the end. -/
def renameLoop : Outline → Outline
  | [] => []
  | (k, v) :: rest =>
    if isSubL introSub (lowerL k.toList) then rest ++ [("Introduction", v)]
    else (k, v) :: renameLoop rest

/-- Lines 314-320: rename only when no exact `"Introduction"` key exists
but some key loosely matches it. -/
def renameIntroSection (o : Outline) : Outline :=
  if olookup o "Introduction" = none && o.any (fun p => isSubL introSub (lowerL p.1.toList)) then
    renameLoop o
  else o

/-- Lines 322-328: move the `"Introduction"` entry to the front, keeping
the relative order of all other entries. -/
def reorderIntroFirst (o : Outline) : Outline :=
  match olookup o "Introduction" with
  | some v => ("Introduction", v) :: o.filter (fun p => p.1 ≠ "Introduction")
  | none => o

/-- src/llm_utils.py `parse_llm_output_to_outline`, lines 226-330.
Note the order: the fallback title reads the outline before the
Introduction rename/reorder steps run. -/
def parse_llm_output_to_outline (llm_output : String) : String × Outline :=
  let lines := splitlines llm_output.toList
  let mtChars := (findMainTitle lines).getD []
  let stF := runLines lines ⟨none, [], []⟩
  let outline1 := flushState stF
  let main_title := if mtChars = [] then fallbackTitle outline1 else String.mk mtChars
  let outline3 := reorderIntroFirst (renameIntroSection outline1)
  (main_title, outline3)

/-! ### `ensure_conclusion_slide` (src/ppt.py lines 673-684; the copy in
src/ppt_generator.py lines 1174-1183 is line-for-line identical) -/

def conclusion_keywords : List (List Char) :=
  ["conclusion".toList, "summary".toList, "wrap-up".toList, "final".toList]

def conclusion_bullets : List Bullet :=
  [⟨"Summary of key points and takeaways", 0⟩,
   ⟨"Future outlook and recommendations", 0⟩,
   ⟨"Q&A and discussion", 0⟩]

/-- `any(keyword in last_section.lower() for keyword in [...])`. -/
def hasConclusionKeyword (s : String) : Bool :=
  conclusion_keywords.any (fun kw => isSubL kw (lowerL s.toList))

/-- `last_section = list(outline.keys())[-1] if outline else ""`; when no
keyword occurs in it, `outline["Conclusion"] = [...]` (a dict assignment,
so an existing `"Conclusion"` key keeps its position and is overwritten). -/
def ensure_conclusion_slide (outline : Outline) (presentation_title : String) : Outline :=
  if !hasConclusionKeyword ((outline.map Prod.fst).getLastD "") then
    dictInsert outline "Conclusion" conclusion_bullets
  else outline

/-! ### `determine_slide_layout` (src/ppt.py lines 144-184 and
src/ppt_generator.py lines 316-357)

`random.choice(layout_options)` is modelled by an explicit `choice`
oracle supplied as a parameter; the deterministic early returns never
reach it.  The two files differ only in `image_layouts`
(ppt_generator.py additionally lists `"title"` there). -/

def determine_slide_layout (choice : List String → String) (slide_index : Nat)
    (detail_level : String) (content_length : Nat) (outline : Outline)
    (section_title : String) : String :=
  let _num_slides := outline.length
  if slide_index = 0 then "title"
  else if isSubL "conclusion".toList (lowerL section_title.toList) then "conclusion"
  else if slide_index = 1 then "title_content"
  else
    let image_layouts : List String := ["image_left_text_right", "image_right_text_left"]
    let content_layouts : List String := ["title_content", "two_column"]
    let all_layouts := image_layouts ++ content_layouts
    let opts1 := if detail_level = "detailed" then content_layouts ++ image_layouts else all_layouts
    let opts2 := if content_length ≤ 2 then image_layouts ++ content_layouts else opts1
    let opts3 := if 5 ≤ content_length then content_layouts ++ image_layouts else opts2
    choice opts3

def determine_slide_layout_gen (choice : List String → String) (slide_index : Nat)
    (detail_level : String) (content_length : Nat) (outline : Outline)
    (section_title : String) : String :=
  let _num_slides := outline.length
  if slide_index = 0 then "title"
  else if isSubL "conclusion".toList (lowerL section_title.toList) then "conclusion"
  else if slide_index = 1 then "title_content"
  else
    let image_layouts : List String := ["image_left_text_right", "image_right_text_left", "title"]
    let content_layouts : List String := ["title_content", "two_column"]
    let all_layouts := image_layouts ++ content_layouts
    let opts1 := if detail_level = "detailed" then content_layouts ++ image_layouts else all_layouts
    let opts2 := if content_length ≤ 2 then image_layouts ++ content_layouts else opts1
    let opts3 := if 5 ≤ content_length then content_layouts ++ image_layouts else opts2
    choice opts3

/-! ### Image placement

src/ppt_generator.py `create_image_left_text_right_slide`
(lines 679-700; `create_image_right_text_left_slide` repeats the same
arithmetic): the image is scaled by
`min(container_w/orig_w, container_h/orig_h)` and centred; the Python
float arithmetic is modelled exactly over `ℚ` (`int(...)` on the
non-negative products is `Int.floor`).

src/ppt.py `create_image_left_text_right_slide` (lines 243-248) and
`create_image_right_text_left_slide` (lines 314-319) instead pass both
`width=` and `height=` to `add_picture`, stretching the image to the
fixed container regardless of its original size. -/

def emuPerInch : ℚ := 914400

/-- The placed picture geometry (EMU values, exact rationals). -/
structure Placement where
  new_w : ℚ
  new_h : ℚ
  pic_left : ℚ
  pic_top : ℚ
deriving DecidableEq, Repr

/-- The geometry computed by src/ppt_generator.py lines 687-700:
`ratio_w/ratio_h` by true division, `scale_factor = min(...)`,
`int(...)` truncation of the non-negative products (= `Int.floor`),
and centring offsets of half the leftover on each axis. -/
def fit_image_in_container (img_left img_top img_width img_height orig_w orig_h : ℚ) :
    Placement :=
  let ratio_w := img_width / orig_w
  let ratio_h := img_height / orig_h
  let scale_factor := min ratio_w ratio_h
  let new_width_emu : ℚ := ((Int.floor (orig_w * scale_factor) : ℤ) : ℚ)
  let new_height_emu : ℚ := ((Int.floor (orig_h * scale_factor) : ℤ) : ℚ)
  let picture_left_emu := img_left + (img_width - new_width_emu) / 2
  let picture_top_emu := img_top + (img_height - new_height_emu) / 2
  ⟨new_width_emu, new_height_emu, picture_left_emu, picture_top_emu⟩

/-- src/ppt.py lines 243-248: `add_picture(image_path, img_left, img_top,
width=img_width, height=img_height)` with `img_width = Inches(4.5)` and
`img_height = Inches(5.5)` — the placed size ignores the original image
dimensions entirely. -/
def ppt_py_picture_size (orig_w orig_h : ℚ) : ℚ × ℚ :=
  let _ := (orig_w, orig_h)
  ((4.5 : ℚ) * emuPerInch, (5.5 : ℚ) * emuPerInch)

/-! ## Theorems -/

/-! ### Association-list toolkit -/

theorem olookup_cons (p : String × List Bullet) (rest : Outline) (k : String) :
    olookup (p :: rest) k = if p.1 = k then some p.2 else olookup rest k := by
  obtain ⟨a, b⟩ := p
  rfl

theorem olookup_append_of_none {l1 : Outline} (l2 : Outline) {k : String}
    (h : olookup l1 k = none) : olookup (l1 ++ l2) k = olookup l2 k := by
  induction l1 with
  | nil => rfl
  | cons p rest ih =>
    rw [olookup_cons] at h
    rw [List.cons_append, olookup_cons]
    by_cases hp : p.1 = k
    · rw [if_pos hp] at h
      exact absurd h (by simp)
    · rw [if_neg hp] at h
      rw [if_neg hp]
      exact ih h

theorem olookup_append_of_some {l1 : Outline} (l2 : Outline) {k : String} {v : List Bullet}
    (h : olookup l1 k = some v) : olookup (l1 ++ l2) k = some v := by
  induction l1 with
  | nil => exact absurd h (by simp [olookup])
  | cons p rest ih =>
    rw [olookup_cons] at h
    rw [List.cons_append, olookup_cons]
    by_cases hp : p.1 = k
    · rw [if_pos hp] at h ⊢
      exact h
    · rw [if_neg hp] at h ⊢
      exact ih h

theorem olookup_eq_none_of_keys {o : Outline} {k : String}
    (h : ∀ p ∈ o, p.1 ≠ k) : olookup o k = none := by
  induction o with
  | nil => rfl
  | cons p rest ih =>
    rw [olookup_cons, if_neg (h p (by simp))]
    exact ih (fun q hq => h q (by simp [hq]))

theorem mem_of_olookup_eq_some {o : Outline} {k : String} {v : List Bullet}
    (h : olookup o k = some v) : (k, v) ∈ o := by
  induction o with
  | nil => exact absurd h (by simp [olookup])
  | cons p rest ih =>
    rw [olookup_cons] at h
    by_cases hp : p.1 = k
    · rw [if_pos hp] at h
      have hv : p.2 = v := by injection h
      have hpe : p = (k, v) := by
        obtain ⟨a, b⟩ := p
        simp only at hp hv
        rw [hp, hv]
      rw [← hpe]
      exact List.mem_cons_self _ _
    · rw [if_neg hp] at h
      exact List.mem_cons_of_mem _ (ih h)

theorem keys_ne_of_olookup_eq_none {o : Outline} {k : String}
    (h : olookup o k = none) : ∀ p ∈ o, p.1 ≠ k := by
  induction o with
  | nil => simp
  | cons p rest ih =>
    rw [olookup_cons] at h
    by_cases hp : p.1 = k
    · rw [if_pos hp] at h
      exact absurd h (by simp)
    · rw [if_neg hp] at h
      intro q hq
      rcases List.mem_cons.mp hq with hq1 | hq2
      · rw [hq1]; exact hp
      · exact ih h q hq2

theorem mem_dictInsert {o : Outline} {k : String} {v : List Bullet} {p : String × List Bullet}
    (h : p ∈ dictInsert o k v) : p ∈ o ∨ p = (k, v) := by
  unfold dictInsert at h
  split at h
  · rcases List.mem_map.mp h with ⟨q, hq, hqe⟩
    by_cases hk : q.1 = k
    · right
      rw [if_pos hk] at hqe
      exact hqe.symm
    · left
      rw [if_neg hk] at hqe
      exact hqe ▸ hq
  · rcases List.mem_append.mp h with h1 | h2
    · exact Or.inl h1
    · right
      simpa using h2

theorem olookup_dictInsert_self (o : Outline) (k : String) (v : List Bullet) :
    olookup (dictInsert o k v) k = some v := by
  unfold dictInsert
  split
  case isTrue h =>
    induction o with
    | nil => simp at h
    | cons p rest ih =>
      rw [List.map_cons]
      by_cases hp : p.1 = k
      · rw [if_pos hp, olookup_cons]
        simp
      · rw [if_neg hp, olookup_cons, if_neg hp]
        have hrest : (rest.any fun q => decide (q.1 = k)) = true := by
          rcases List.any_eq_true.mp h with ⟨q, hq, hqk⟩
          rcases List.mem_cons.mp hq with hq1 | hq2
          · exact absurd (of_decide_eq_true (hq1 ▸ hqk)) hp
          · exact List.any_eq_true.mpr ⟨q, hq2, hqk⟩
        exact ih hrest
  case isFalse h =>
    have hnone : olookup o k = none := by
      apply olookup_eq_none_of_keys
      intro p hp hpk
      exact h (List.any_eq_true.mpr ⟨p, hp, decide_eq_true hpk⟩)
    rw [olookup_append_of_none _ hnone, olookup_cons]
    simp

theorem olookup_dictInsert_ne {o : Outline} (k : String) (v : List Bullet) {k2 : String}
    (hne : k2 ≠ k) : olookup (dictInsert o k v) k2 = olookup o k2 := by
  unfold dictInsert
  split
  case isTrue hany =>
    clear hany
    induction o with
    | nil => rfl
    | cons p rest ih =>
      rw [List.map_cons, olookup_cons, olookup_cons]
      by_cases hp : p.1 = k
      · rw [if_pos hp]
        have h1 : ¬ ((k, v) : String × List Bullet).1 = k2 := fun hc => hne hc.symm
        have h2 : ¬ p.1 = k2 := by
          rw [hp]
          exact fun hc => hne hc.symm
        rw [if_neg h1, if_neg h2]
        exact ih
      · rw [if_neg hp]
        by_cases hq : p.1 = k2
        · rw [if_pos hq, if_pos hq]
        · rw [if_neg hq, if_neg hq]
          exact ih
  case isFalse hany =>
    cases hres : olookup o k2 with
    | some w => rw [olookup_append_of_some _ hres]
    | none =>
      rw [olookup_append_of_none _ hres, olookup_cons,
        if_neg (fun hc => hne hc.symm : ¬ ((k, v) : String × List Bullet).1 = k2)]
      rfl

/-! ### The loop in `runLines` form -/

theorem runLines_nil (st : PState) : runLines [] st = st := rfl

theorem runLines_cons (l : List Char) (rest : List (List Char)) (st : PState) :
    runLines (l :: rest) st = runLines rest (stepLine st l) := rfl

theorem runLines_append (l1 l2 : List (List Char)) (st : PState) :
    runLines (l1 ++ l2) st = runLines l2 (runLines l1 st) :=
  List.foldl_append _ _ _ _

/-! ### Invariants of the slide-accumulation loop -/

theorem flushState_keys_ne_empty {st : PState}
    (hout : ∀ p ∈ st.outline, p.1 ≠ "") :
    ∀ p ∈ flushState st, p.1 ≠ "" := by
  obtain ⟨cur, cont, outl⟩ := st
  cases cur with
  | none => exact hout
  | some t =>
    unfold flushState
    dsimp only
    split
    case isTrue hcond =>
      intro p hp
      rcases mem_dictInsert hp with h1 | h2
      · exact hout p h1
      · rw [h2]
        simp only [Bool.and_eq_true, decide_eq_true_eq] at hcond
        exact hcond.1
    case isFalse => exact hout

theorem stepLine_keys_ne_empty {st : PState} (raw : List Char)
    (hout : ∀ p ∈ st.outline, p.1 ≠ "") :
    ∀ p ∈ (stepLine st raw).outline, p.1 ≠ "" := by
  unfold stepLine
  split
  · exact hout
  · split
    · exact flushState_keys_ne_empty hout
    · split
      · exact hout
      · exact hout

theorem runLines_keys_ne_empty (lines : List (List Char)) (st : PState)
    (hout : ∀ p ∈ st.outline, p.1 ≠ "") :
    ∀ p ∈ (runLines lines st).outline, p.1 ≠ "" := by
  induction lines generalizing st with
  | nil => exact hout
  | cons l rest ih =>
    rw [runLines_cons]
    exact ih (stepLine st l) (stepLine_keys_ne_empty l hout)

/-! ### The post-processing steps: membership and key preservation -/

theorem mem_renameLoop {o : Outline} {p : String × List Bullet}
    (h : p ∈ renameLoop o) : p ∈ o ∨ p.1 = "Introduction" := by
  induction o with
  | nil => exact absurd h (by simp [renameLoop])
  | cons q rest ih =>
    obtain ⟨a, b⟩ := q
    unfold renameLoop at h
    split at h
    · rcases List.mem_append.mp h with h1 | h2
      · exact Or.inl (List.mem_cons_of_mem _ h1)
      · right
        have hpe : p = ("Introduction", b) := by simpa using h2
        rw [hpe]
    · rcases List.mem_cons.mp h with h1 | h2
      · exact Or.inl (h1 ▸ List.mem_cons_self _ _)
      · rcases ih h2 with h3 | h4
        · exact Or.inl (List.mem_cons_of_mem _ h3)
        · exact Or.inr h4

theorem mem_renameIntroSection {o : Outline} {p : String × List Bullet}
    (h : p ∈ renameIntroSection o) : p ∈ o ∨ p.1 = "Introduction" := by
  unfold renameIntroSection at h
  split at h
  · exact mem_renameLoop h
  · exact Or.inl h

theorem mem_reorderIntroFirst {o : Outline} {p : String × List Bullet}
    (h : p ∈ reorderIntroFirst o) : p ∈ o ∨ p.1 = "Introduction" := by
  unfold reorderIntroFirst at h
  split at h
  case h_1 v hv =>
    rcases List.mem_cons.mp h with h1 | h2
    · right; rw [h1]
    · exact Or.inl (List.mem_of_mem_filter h2)
  case h_2 => exact Or.inl h

theorem fallbackTitle_ne_empty {o : Outline}
    (h : ∀ p ∈ o, p.1 ≠ "") : fallbackTitle o ≠ "" := by
  unfold fallbackTitle
  split
  case h_1 k hk =>
    have hmem : k ∈ o.map Prod.fst := List.mem_of_find?_eq_some hk
    rcases List.mem_map.mp hmem with ⟨p, hp, hpe⟩
    exact hpe ▸ h p hp
  case h_2 =>
    cases o with
    | nil => simp
    | cons p rest =>
      simpa using h p (by simp)

/-- Claim C7: the deterministic layout overrides of `determine_slide_layout`
(in both src/ppt.py and src/ppt_generator.py): slide 0 is always `"title"`;
any later slide whose section title contains `"conclusion"`
case-insensitively is `"conclusion"`; slide 1 is otherwise
`"title_content"` — all independent of the random choice, the detail
level, the bullet count and the outline. -/
theorem spec_C7_layout_overrides
    (choice : List String → String) (detail_level : String) (content_length : Nat)
    (outline : Outline) (section_title : String) :
    (determine_slide_layout choice 0 detail_level content_length outline section_title = "title" ∧
     determine_slide_layout_gen choice 0 detail_level content_length outline section_title = "title") ∧
    (∀ i : Nat, 0 < i → isSubL "conclusion".toList (lowerL section_title.toList) = true →
      determine_slide_layout choice i detail_level content_length outline section_title = "conclusion" ∧
      determine_slide_layout_gen choice i detail_level content_length outline section_title = "conclusion") ∧
    (isSubL "conclusion".toList (lowerL section_title.toList) = false →
      determine_slide_layout choice 1 detail_level content_length outline section_title = "title_content" ∧
      determine_slide_layout_gen choice 1 detail_level content_length outline section_title = "title_content") := by
  refine ⟨⟨rfl, rfl⟩, ?_, ?_⟩
  · intro i hi hconc
    have hne : ¬ i = 0 := by omega
    simp only [String.toList] at hconc
    constructor <;> simp [determine_slide_layout, determine_slide_layout_gen, hne, hconc]
  · intro hconc
    simp only [String.toList] at hconc
    constructor <;> simp [determine_slide_layout, determine_slide_layout_gen, hconc]

/-- Witness for C7 at slide 2 with title "Key Conclusions". -/
theorem spec_C7_witness :
    (0 : Nat) < 2 ∧ isSubL "conclusion".toList (lowerL "Key Conclusions".toList) = true ∧
    determine_slide_layout (fun _ => "two_column") 2 "simple" 4 [] "Key Conclusions" = "conclusion" ∧
    determine_slide_layout_gen (fun _ => "two_column") 2 "simple" 4 [] "Key Conclusions" = "conclusion" := by
  have h := spec_C7_layout_overrides (fun _ => "two_column") "simple" 4 [] "Key Conclusions"
  exact ⟨by decide, by decide, (h.2.1 2 (by decide) (by decide)).1, (h.2.1 2 (by decide) (by decide)).2⟩

/-- Claim C6 (counterexample): on an outline that already holds a
`"Conclusion"` key in non-final position, `ensure_conclusion_slide`
overwrites that section in place instead of appending a new last section,
so the pre-existing sections are not left unchanged and `"Conclusion"`
does not become the last key as the claim states. -/
theorem spec_C6_counterexample :
    ensure_conclusion_slide [("Conclusion", [⟨"old", 0⟩]), ("Extras", [⟨"x", 0⟩])] "T" =
      [("Conclusion", conclusion_bullets), ("Extras", [⟨"x", 0⟩])] ∧
    ensure_conclusion_slide [("Conclusion", [⟨"old", 0⟩]), ("Extras", [⟨"x", 0⟩])] "T" ≠
      [("Conclusion", [⟨"old", 0⟩]), ("Extras", [⟨"x", 0⟩])] ++ [("Conclusion", conclusion_bullets)] := by
  exact ⟨by decide, by decide⟩

/-- Claim C6 (amended): when no `"Conclusion"` key already exists and the
last section title has no conclusion keyword, `ensure_conclusion_slide`
appends exactly the fixed three-bullet `"Conclusion"` section at the end,
leaving everything else unchanged; when the last section title carries a
keyword, the outline is returned unchanged. -/
theorem spec_C6_amended (o : Outline) (t : String) :
    ("Conclusion" ∉ o.map Prod.fst →
      hasConclusionKeyword ((o.map Prod.fst).getLastD "") = false →
      ensure_conclusion_slide o t = o ++ [("Conclusion", conclusion_bullets)]) ∧
    (hasConclusionKeyword ((o.map Prod.fst).getLastD "") = true →
      ensure_conclusion_slide o t = o) := by
  constructor
  · intro hnot hkw
    have hany : (o.any fun p => decide (p.1 = "Conclusion")) = false := by
      simp only [List.any_eq_false, decide_eq_true_eq]
      intro p hp hcon
      exact hnot (List.mem_map.mpr ⟨p, hp, hcon⟩)
    unfold ensure_conclusion_slide
    rw [hkw]
    simp [dictInsert, hany]
  · intro hkw
    unfold ensure_conclusion_slide
    rw [hkw]
    simp

/-- Witness for C6 at a one-section outline with no conclusion keyword. -/
theorem spec_C6_witness :
    ("Conclusion" ∉ (([("Intro", [])] : Outline).map Prod.fst)) ∧
    hasConclusionKeyword ((([("Intro", [])] : Outline).map Prod.fst).getLastD "") = false ∧
    ensure_conclusion_slide [("Intro", [])] "T" = [("Intro", []), ("Conclusion", conclusion_bullets)] :=
  ⟨by decide, by decide, (spec_C6_amended [("Intro", [])] "T").1 (by decide) (by decide)⟩

/-- Claim C9 (counterexample): the markdown strip is applied to any pair
of asterisks anywhere in a bullet line, so a bullet `- 2 * 3 * 4` loses
both multiplication asterisks (`*(.*?)*` matches mid-sentence). -/
theorem spec_C9_counterexample :
    (parse_llm_output_to_outline "**S**\n- 2 * 3 * 4").2 = [("S", [⟨"2 3 4", 0⟩])] := by
  decide

/-- Claim C9 (amended): a bullet containing a single unpaired asterisk,
such as `2 * 3`, keeps it (the claim's own example survives); only paired
`**...**` / `*...*` spans — wherever they occur in the line — are
stripped. -/
theorem spec_C9_amended :
    (parse_llm_output_to_outline "**S**\n- 2 * 3").2 = [("S", [⟨"2 * 3", 0⟩])] ∧
    clean_markdown "2 * 3".toList = "2 * 3".toList := by
  exact ⟨by decide, by decide⟩

/-- Claim C5 (counterexample): a content line indented by 4 spaces yields
a bullet of level 0, not level 2, because the parser strips each line
before buffering it. -/
theorem spec_C5_counterexample :
    (parse_llm_output_to_outline "**S**\n    - a").2 = [("S", [⟨"a", 0⟩])] ∧
    ([⟨"a", 0⟩] : List Bullet) ≠ [⟨"a", 2⟩] := by
  exact ⟨by decide, by decide⟩

/-- Claim C3 (counterexample): with an earlier section whose title also
loosely matches `introduction`, the rename step renames that one, not
`**Background Introduction**`, which stays in the outline under its own
name while the other section's bullets become `"Introduction"`. -/
theorem spec_C3_counterexample :
    (parse_llm_output_to_outline "**About Introductions**\n- x\n**Background Introduction**\n- y").2 =
      [("Introduction", [⟨"x", 0⟩]), ("Background Introduction", [⟨"y", 0⟩])] := by
  decide

/-- Claim C10 (counterexample): the input `**S**\n**S**\n- a` has its
first line as a header immediately followed by another header with no
content line between, yet `"S"` does appear among the returned outline
keys (via the second occurrence), contradicting "does not appear in the
outline at all". -/
theorem spec_C10_counterexample :
    headerTitle "**S**".toList = some "S" ∧
    splitlines "**S**\n**S**\n- a".toList = ["**S**".toList, "**S**".toList, "- a".toList] ∧
    (parse_llm_output_to_outline "**S**\n**S**\n- a").2.map Prod.fst = ["S"] := by
  exact ⟨by decide, by decide, by decide⟩


/-- Claim C8 (counterexample): src/ppt.py's image layouts stretch the
picture to the fixed 4.5 x 5.5 inch container, so for a square 100 x 100
image the placed width/height ratio is 4.5/5.5, not the original 1 —
`scale = min(...)` is not used there. -/
theorem spec_C8_counterexample :
    ppt_py_picture_size 100 100 = (4114800, 5029200) ∧
    (ppt_py_picture_size 100 100).1 * 100 ≠ (ppt_py_picture_size 100 100).2 * 100 := by
  constructor
  · show ((4.5 : ℚ) * emuPerInch, (5.5 : ℚ) * emuPerInch) = (4114800, 5029200)
    norm_num [emuPerInch]
  · show (4.5 : ℚ) * emuPerInch * 100 ≠ (5.5 : ℚ) * emuPerInch * 100
    norm_num [emuPerInch]

/-- Claim C8 (amended): in src/ppt_generator.py the placed image geometry
(modelled exactly over the rationals) uses `scale = min(Wc/Wi, Hc/Hi)`:
the truncated dimensions are non-negative, fit inside the container, the
placed ratio equals `Wi/Hi` up to the integer truncation (the cross
products differ by less than `max Wi Hi`), and the leftover margin on
each axis is split equally.  In src/ppt.py the image is instead stretched
to the container (see the counterexample). -/
theorem spec_C8_amended (img_left img_top img_width img_height orig_w orig_h : ℚ)
    (hcw : 0 < img_width) (hch : 0 < img_height) (hw : 0 < orig_w) (hh : 0 < orig_h) :
    (fit_image_in_container img_left img_top img_width img_height orig_w orig_h).new_w =
      ((Int.floor (orig_w * min (img_width / orig_w) (img_height / orig_h)) : ℤ) : ℚ) ∧
    (fit_image_in_container img_left img_top img_width img_height orig_w orig_h).new_h =
      ((Int.floor (orig_h * min (img_width / orig_w) (img_height / orig_h)) : ℤ) : ℚ) ∧
    0 ≤ (fit_image_in_container img_left img_top img_width img_height orig_w orig_h).new_w ∧
    0 ≤ (fit_image_in_container img_left img_top img_width img_height orig_w orig_h).new_h ∧
    (fit_image_in_container img_left img_top img_width img_height orig_w orig_h).new_w ≤ img_width ∧
    (fit_image_in_container img_left img_top img_width img_height orig_w orig_h).new_h ≤ img_height ∧
    |(fit_image_in_container img_left img_top img_width img_height orig_w orig_h).new_w * orig_h -
      (fit_image_in_container img_left img_top img_width img_height orig_w orig_h).new_h * orig_w| <
      max orig_w orig_h ∧
    (fit_image_in_container img_left img_top img_width img_height orig_w orig_h).pic_left - img_left =
      (img_left + img_width) -
        ((fit_image_in_container img_left img_top img_width img_height orig_w orig_h).pic_left +
         (fit_image_in_container img_left img_top img_width img_height orig_w orig_h).new_w) ∧
    (fit_image_in_container img_left img_top img_width img_height orig_w orig_h).pic_top - img_top =
      (img_top + img_height) -
        ((fit_image_in_container img_left img_top img_width img_height orig_w orig_h).pic_top +
         (fit_image_in_container img_left img_top img_width img_height orig_w orig_h).new_h) := by
  have hsc : 0 < min (img_width / orig_w) (img_height / orig_h) :=
    lt_min (div_pos hcw hw) (div_pos hch hh)
  have hx : (0 : ℚ) ≤ orig_w * min (img_width / orig_w) (img_height / orig_h) :=
    le_of_lt (mul_pos hw hsc)
  have hy : (0 : ℚ) ≤ orig_h * min (img_width / orig_w) (img_height / orig_h) :=
    le_of_lt (mul_pos hh hsc)
  refine ⟨rfl, rfl, ?_, ?_, ?_, ?_, ?_, ?_, ?_⟩
  · show (0 : ℚ) ≤ ((Int.floor (orig_w * min (img_width / orig_w) (img_height / orig_h)) : ℤ) : ℚ)
    exact_mod_cast Int.floor_nonneg.mpr hx
  · show (0 : ℚ) ≤ ((Int.floor (orig_h * min (img_width / orig_w) (img_height / orig_h)) : ℤ) : ℚ)
    exact_mod_cast Int.floor_nonneg.mpr hy
  · show ((Int.floor (orig_w * min (img_width / orig_w) (img_height / orig_h)) : ℤ) : ℚ) ≤ img_width
    calc ((Int.floor (orig_w * min (img_width / orig_w) (img_height / orig_h)) : ℤ) : ℚ)
        ≤ orig_w * min (img_width / orig_w) (img_height / orig_h) := Int.floor_le _
      _ ≤ orig_w * (img_width / orig_w) :=
          mul_le_mul_of_nonneg_left (min_le_left _ _) hw.le
      _ = img_width := by rw [mul_comm, div_mul_cancel₀ _ (ne_of_gt hw)]
  · show ((Int.floor (orig_h * min (img_width / orig_w) (img_height / orig_h)) : ℤ) : ℚ) ≤ img_height
    calc ((Int.floor (orig_h * min (img_width / orig_w) (img_height / orig_h)) : ℤ) : ℚ)
        ≤ orig_h * min (img_width / orig_w) (img_height / orig_h) := Int.floor_le _
      _ ≤ orig_h * (img_height / orig_h) :=
          mul_le_mul_of_nonneg_left (min_le_right _ _) hh.le
      _ = img_height := by rw [mul_comm, div_mul_cancel₀ _ (ne_of_gt hh)]
  · show |((Int.floor (orig_w * min (img_width / orig_w) (img_height / orig_h)) : ℤ) : ℚ) * orig_h -
        ((Int.floor (orig_h * min (img_width / orig_w) (img_height / orig_h)) : ℤ) : ℚ) * orig_w| <
        max orig_w orig_h
    have f1 : ((Int.floor (orig_w * min (img_width / orig_w) (img_height / orig_h)) : ℤ) : ℚ) ≤
        orig_w * min (img_width / orig_w) (img_height / orig_h) := Int.floor_le _
    have f2 : orig_w * min (img_width / orig_w) (img_height / orig_h) - 1 <
        ((Int.floor (orig_w * min (img_width / orig_w) (img_height / orig_h)) : ℤ) : ℚ) :=
      Int.sub_one_lt_floor _
    have f3 : ((Int.floor (orig_h * min (img_width / orig_w) (img_height / orig_h)) : ℤ) : ℚ) ≤
        orig_h * min (img_width / orig_w) (img_height / orig_h) := Int.floor_le _
    have f4 : orig_h * min (img_width / orig_w) (img_height / orig_h) - 1 <
        ((Int.floor (orig_h * min (img_width / orig_w) (img_height / orig_h)) : ℤ) : ℚ) :=
      Int.sub_one_lt_floor _
    rw [abs_lt]
    constructor
    · have hlow : -orig_h <
          ((Int.floor (orig_w * min (img_width / orig_w) (img_height / orig_h)) : ℤ) : ℚ) * orig_h -
          ((Int.floor (orig_h * min (img_width / orig_w) (img_height / orig_h)) : ℤ) : ℚ) * orig_w := by
        nlinarith [mul_lt_mul_of_pos_right f2 hh, mul_le_mul_of_nonneg_right f3 hw.le]
      calc -(max orig_w orig_h) ≤ -orig_h := neg_le_neg (le_max_right _ _)
        _ < _ := hlow
    · have hup :
          ((Int.floor (orig_w * min (img_width / orig_w) (img_height / orig_h)) : ℤ) : ℚ) * orig_h -
          ((Int.floor (orig_h * min (img_width / orig_w) (img_height / orig_h)) : ℤ) : ℚ) * orig_w <
          orig_w := by
        nlinarith [mul_le_mul_of_nonneg_right f1 hh.le, mul_lt_mul_of_pos_right f4 hw]
      exact lt_of_lt_of_le hup (le_max_left _ _)
  · show img_left + (img_width -
        ((Int.floor (orig_w * min (img_width / orig_w) (img_height / orig_h)) : ℤ) : ℚ)) / 2 - img_left =
      (img_left + img_width) -
        ((img_left + (img_width -
          ((Int.floor (orig_w * min (img_width / orig_w) (img_height / orig_h)) : ℤ) : ℚ)) / 2) +
         ((Int.floor (orig_w * min (img_width / orig_w) (img_height / orig_h)) : ℤ) : ℚ))
    ring
  · show img_top + (img_height -
        ((Int.floor (orig_h * min (img_width / orig_w) (img_height / orig_h)) : ℤ) : ℚ)) / 2 - img_top =
      (img_top + img_height) -
        ((img_top + (img_height -
          ((Int.floor (orig_h * min (img_width / orig_w) (img_height / orig_h)) : ℤ) : ℚ)) / 2) +
         ((Int.floor (orig_h * min (img_width / orig_w) (img_height / orig_h)) : ℤ) : ℚ))
    ring

/-- Witness for C8 at a 200 x 100 container and a 4 x 2 image. -/
theorem spec_C8_witness :
    (0 : ℚ) < 200 ∧ (0 : ℚ) < 100 ∧ (0 : ℚ) < 4 ∧ (0 : ℚ) < 2 ∧
    (fit_image_in_container 10 20 200 100 4 2).new_w ≤ 200 ∧
    (fit_image_in_container 10 20 200 100 4 2).new_h ≤ 100 :=
  ⟨by norm_num, by norm_num, by norm_num, by norm_num,
   (spec_C8_amended 10 20 200 100 4 2 (by norm_num) (by norm_num) (by norm_num)
      (by norm_num)).2.2.2.2.1,
   (spec_C8_amended 10 20 200 100 4 2 (by norm_num) (by norm_num) (by norm_num)
      (by norm_num)).2.2.2.2.2.1⟩


/-- Claim C1: the embedded `parse_llm_output_to_outline` is a total
function on arbitrary input strings returning `(title, outline)` (the
Python source has no raising path: every failure case falls through to a
default), the returned title is never the empty string, and an input with
no detectable structure yields the defaults `("Presentation", {})`. -/
theorem spec_C1_parse_total_title_nonempty :
    (∀ s : String, (parse_llm_output_to_outline s).1 ≠ "") ∧
    parse_llm_output_to_outline "" = ("Presentation", []) := by
  constructor
  · intro s
    show (if ((findMainTitle (splitlines s.toList)).getD []) = []
          then fallbackTitle (flushState (runLines (splitlines s.toList) ⟨none, [], []⟩))
          else String.mk ((findMainTitle (splitlines s.toList)).getD [])) ≠ ""
    split
    case isTrue =>
      apply fallbackTitle_ne_empty
      apply flushState_keys_ne_empty
      apply runLines_keys_ne_empty
      intro p hp
      exact absurd hp (List.not_mem_nil p)
    case isFalse h =>
      intro heq
      exact h (congrArg String.data heq)
  · rfl


/-! ### All bullets produced through the loop have level 0: the loop
buffers stripped lines, so `process_bullet_points` never sees leading
whitespace. -/

theorem dropWhile_head_false (p : Char → Bool) (l : List Char) {c : Char}
    (h : (l.dropWhile p).head? = some c) : p c = false := by
  induction l with
  | nil => simp [List.dropWhile] at h
  | cons d rest ih =>
    rw [List.dropWhile_cons] at h
    by_cases hd : p d = true
    · rw [if_pos hd] at h
      exact ih h
    · rw [if_neg hd] at h
      have : d = c := by simpa using h
      rw [← this]
      exact Bool.not_eq_true _ ▸ hd

theorem stripL_isPrefix (s : List Char) : stripL s <+: s.dropWhile isPySpace := by
  show List.rdropWhile isPySpace (s.dropWhile isPySpace) <+: s.dropWhile isPySpace
  exact List.rdropWhile_prefix isPySpace (s.dropWhile isPySpace)

theorem stripL_takeWhile_nil {s : List Char} (h : stripL s ≠ []) :
    (stripL s).takeWhile isPySpace = [] := by
  obtain ⟨t, ht⟩ := stripL_isPrefix s
  cases hc : stripL s with
  | nil => exact absurd hc h
  | cons c cs =>
    have hhead : (s.dropWhile isPySpace).head? = some c := by
      rw [← ht, hc]
      rfl
    have hns := dropWhile_head_false isPySpace s hhead
    rw [List.takeWhile_cons, hns]
    simp

theorem bulletStep_levels {acc : List Bullet} {line : List Char}
    (hacc : ∀ b ∈ acc, b.level = 0) (hline : line.takeWhile isPySpace = []) :
    ∀ b ∈ bulletStep acc line, b.level = 0 := by
  unfold bulletStep
  split
  · exact hacc
  · split
    · exact hacc
    · intro b hb
      rcases List.mem_append.mp hb with h1 | h2
      · exact hacc b h1
      · have hbe : b = ⟨String.mk (stripNumMark (stripBulletMark (clean_markdown (stripL line)))),
            max 0 (min ((line.takeWhile isPySpace).length / 2) 3)⟩ := by
          simpa using h2
        rw [hbe]
        show max 0 (min ((line.takeWhile isPySpace).length / 2) 3) = 0
        rw [hline]
        rfl

theorem process_bullet_points_levels {lines : List (List Char)}
    (h : ∀ l ∈ lines, l.takeWhile isPySpace = []) :
    ∀ b ∈ process_bullet_points lines, b.level = 0 := by
  unfold process_bullet_points
  suffices haux : ∀ (ls : List (List Char)) (acc : List Bullet),
      (∀ b ∈ acc, b.level = 0) → (∀ l ∈ ls, l.takeWhile isPySpace = []) →
      ∀ b ∈ ls.foldl bulletStep acc, b.level = 0 by
    exact haux lines [] (by simp) h
  intro ls
  induction ls with
  | nil => intro acc hacc _; exact hacc
  | cons l rest ih =>
    intro acc hacc hls
    rw [List.foldl_cons]
    exact ih _ (bulletStep_levels hacc (hls l (by simp))) (fun q hq => hls q (by simp [hq]))

theorem flushState_levels {st : PState}
    (hcont : ∀ l ∈ st.content, l.takeWhile isPySpace = [])
    (hout : ∀ p ∈ st.outline, ∀ b ∈ p.2, b.level = 0) :
    ∀ p ∈ flushState st, ∀ b ∈ p.2, b.level = 0 := by
  obtain ⟨cur, cont, outl⟩ := st
  cases cur with
  | none => exact hout
  | some t =>
    unfold flushState
    dsimp only
    split
    · intro p hp
      rcases mem_dictInsert hp with h1 | h2
      · exact hout p h1
      · rw [h2]
        exact process_bullet_points_levels hcont
    · exact hout

theorem stepLine_inv {st : PState} (raw : List Char)
    (hcont : ∀ l ∈ st.content, l.takeWhile isPySpace = [])
    (hout : ∀ p ∈ st.outline, ∀ b ∈ p.2, b.level = 0) :
    (∀ l ∈ (stepLine st raw).content, l.takeWhile isPySpace = []) ∧
    (∀ p ∈ (stepLine st raw).outline, ∀ b ∈ p.2, b.level = 0) := by
  unfold stepLine
  split
  · exact ⟨hcont, hout⟩
  case isFalse hne =>
    split
    · exact ⟨by simp, flushState_levels hcont hout⟩
    · split
      · constructor
        · intro l hl
          rcases List.mem_append.mp hl with h1 | h2
          · exact hcont l h1
          · have : l = stripL raw := by simpa using h2
            rw [this]
            exact stripL_takeWhile_nil hne
        · exact hout
      · exact ⟨hcont, hout⟩

theorem runLines_levels (lines : List (List Char)) (st : PState)
    (hcont : ∀ l ∈ st.content, l.takeWhile isPySpace = [])
    (hout : ∀ p ∈ st.outline, ∀ b ∈ p.2, b.level = 0) :
    (∀ l ∈ (runLines lines st).content, l.takeWhile isPySpace = []) ∧
    (∀ p ∈ (runLines lines st).outline, ∀ b ∈ p.2, b.level = 0) := by
  induction lines generalizing st with
  | nil => exact ⟨hcont, hout⟩
  | cons l rest ih =>
    rw [runLines_cons]
    obtain ⟨h1, h2⟩ := stepLine_inv l hcont hout
    exact ih _ h1 h2

theorem snd_mem_renameLoop {o : Outline} {p : String × List Bullet}
    (h : p ∈ renameLoop o) : ∃ q ∈ o, p.2 = q.2 := by
  induction o with
  | nil => exact absurd h (by simp [renameLoop])
  | cons q rest ih =>
    obtain ⟨a, b⟩ := q
    unfold renameLoop at h
    split at h
    · rcases List.mem_append.mp h with h1 | h2
      · exact ⟨p, List.mem_cons_of_mem _ h1, rfl⟩
      · have hpe : p = ("Introduction", b) := by simpa using h2
        exact ⟨(a, b), List.mem_cons_self _ _, by rw [hpe]⟩
    · rcases List.mem_cons.mp h with h1 | h2
      · exact ⟨(a, b), List.mem_cons_self _ _, by rw [h1]⟩
      · rcases ih h2 with ⟨q2, hq2, hqe⟩
        exact ⟨q2, List.mem_cons_of_mem _ hq2, hqe⟩

theorem snd_mem_renameIntroSection {o : Outline} {p : String × List Bullet}
    (h : p ∈ renameIntroSection o) : ∃ q ∈ o, p.2 = q.2 := by
  unfold renameIntroSection at h
  split at h
  · exact snd_mem_renameLoop h
  · exact ⟨p, h, rfl⟩

theorem snd_mem_reorderIntroFirst {o : Outline} {p : String × List Bullet}
    (h : p ∈ reorderIntroFirst o) : ∃ q ∈ o, p.2 = q.2 := by
  unfold reorderIntroFirst at h
  split at h
  case h_1 v hv =>
    rcases List.mem_cons.mp h with h1 | h2
    · exact ⟨("Introduction", v), mem_of_olookup_eq_some hv, by rw [h1]⟩
    · exact ⟨p, List.mem_of_mem_filter h2, rfl⟩
  case h_2 => exact ⟨p, h, rfl⟩

/-- All bullets in the returned outline have level 0 (shared helper for
the level claims). -/
theorem parse_outline_levels_zero (s : String) :
    ∀ p ∈ (parse_llm_output_to_outline s).2, ∀ b ∈ p.2, b.level = 0 := by
  intro p hp
  have hp2 : p ∈ reorderIntroFirst (renameIntroSection
      (flushState (runLines (splitlines s.toList) ⟨none, [], []⟩))) := hp
  rcases snd_mem_reorderIntroFirst hp2 with ⟨q, hq, hqe⟩
  rcases snd_mem_renameIntroSection hq with ⟨r, hr, hre⟩
  have hbase := flushState_levels
    (runLines_levels (splitlines s.toList) ⟨none, [], []⟩ (by simp) (by simp)).1
    (runLines_levels (splitlines s.toList) ⟨none, [], []⟩ (by simp) (by simp)).2
  rw [hqe, hre]
  exact hbase r hr

/-- Claim C4: every bullet in every section of the returned outline has
`0 ≤ level ≤ 3`, whatever the input string (the clamp
`max(0, min(level, 3))` bounds the level; in fact the loop strips lines
first, so the level is always 0). -/
theorem spec_C4_levels_in_range (s : String) (k : String) (bs : List Bullet) (b : Bullet)
    (hk : (k, bs) ∈ (parse_llm_output_to_outline s).2) (hb : b ∈ bs) :
    0 ≤ b.level ∧ b.level ≤ 3 := by
  have h0 : b.level = 0 := parse_outline_levels_zero s (k, bs) hk b hb
  rw [h0]
  exact ⟨Nat.le_refl 0, by omega⟩

/-- Witness for C4 on a concrete parse. -/
theorem spec_C4_witness :
    (("S", [⟨"a", 0⟩]) ∈ (parse_llm_output_to_outline "**S**\n- a").2) ∧
    ((⟨"a", 0⟩ : Bullet) ∈ [(⟨"a", 0⟩ : Bullet)]) ∧
    (0 ≤ (⟨"a", 0⟩ : Bullet).level ∧ (⟨"a", 0⟩ : Bullet).level ≤ 3) :=
  ⟨by decide, by decide,
   spec_C4_levels_in_range "**S**\n- a" "S" [⟨"a", 0⟩] ⟨"a", 0⟩ (by decide) (by decide)⟩

/-- Claim C5 (amended): the parser's bullets always carry level 0, since
each line is stripped before buffering; the 2-spaces-per-level rule
(clamped to 3) lives in `process_bullet_points` and only acts when that
function receives an unstripped line, and there a tab counts as a single
whitespace character (one tab does not give one level). -/
theorem spec_C5_amended :
    (∀ (s : String) (p : String × List Bullet) (b : Bullet),
      p ∈ (parse_llm_output_to_outline s).2 → b ∈ p.2 → b.level = 0) ∧
    process_bullet_points ["    - a".toList] = [⟨"a", 2⟩] ∧
    process_bullet_points ["\t- t".toList] = [⟨"t", 0⟩] :=
  ⟨fun s p b hp hb => parse_outline_levels_zero s p hp b hb, by decide, by decide⟩

/-- Witness for C5 on a concrete parse of an indented bullet. -/
theorem spec_C5_witness :
    (("S", [⟨"a", 0⟩]) ∈ (parse_llm_output_to_outline "**S**\n    - a").2) ∧
    (⟨"a", 0⟩ : Bullet).level = 0 :=
  ⟨by decide,
   spec_C5_amended.1 "**S**\n    - a" ("S", [⟨"a", 0⟩]) ⟨"a", 0⟩ (by decide) (by decide)⟩


/-! ### A trailing block of lines after an explicit newline survives
`splitlines` verbatim. -/

theorem splitlinesAux_newline_head (ys : List Char) (acc : List Char) :
    ∃ pre, splitlinesAux ('\n' :: ys) acc = pre ++ splitlinesAux ys [] := by
  cases ys with
  | nil =>
    refine ⟨[acc.reverse], ?_⟩
    show (if isLineBreakCh '\n' then [acc.reverse] else [('\n' :: acc).reverse]) =
      [acc.reverse] ++ splitlinesAux [] []
    rw [if_pos (by decide : isLineBreakCh '\n' = true)]
    rfl
  | cons y ys2 =>
    refine ⟨[acc.reverse], ?_⟩
    show (if Char.ofNat 13 = '\n' then
            if y = '\n' then acc.reverse :: splitlinesAux ys2 []
            else acc.reverse :: splitlinesAux (y :: ys2) []
          else if isLineBreakCh '\n' then acc.reverse :: splitlinesAux (y :: ys2) []
          else splitlinesAux (y :: ys2) ('\n' :: acc)) =
      [acc.reverse] ++ splitlinesAux (y :: ys2) []
    rw [if_neg (by decide : ¬ Char.ofNat 13 = '\n'),
      if_pos (by decide : isLineBreakCh '\n' = true)]
    rfl

theorem splitlinesAux_append_newline (ys : List Char) :
    ∀ (n : Nat) (xs : List Char), xs.length ≤ n → ∀ acc : List Char,
      ∃ pre, splitlinesAux (xs ++ '\n' :: ys) acc = pre ++ splitlinesAux ys [] := by
  intro n
  induction n with
  | zero =>
    intro xs hxs acc
    have hx : xs = [] := List.length_eq_zero.mp (Nat.le_zero.mp hxs)
    rw [hx, List.nil_append]
    exact splitlinesAux_newline_head ys acc
  | succ n ih =>
    intro xs hxs acc
    cases xs with
    | nil =>
      rw [List.nil_append]
      exact splitlinesAux_newline_head ys acc
    | cons c xs2 =>
      cases xs2 with
      | nil =>
        show ∃ pre, splitlinesAux (c :: '\n' :: ys) acc = pre ++ splitlinesAux ys []
        by_cases hc : Char.ofNat 13 = c
        · refine ⟨[acc.reverse], ?_⟩
          show (if Char.ofNat 13 = c then
                  if '\n' = '\n' then acc.reverse :: splitlinesAux ys []
                  else acc.reverse :: splitlinesAux ('\n' :: ys) []
                else if isLineBreakCh c then acc.reverse :: splitlinesAux ('\n' :: ys) []
                else splitlinesAux ('\n' :: ys) (c :: acc)) =
            [acc.reverse] ++ splitlinesAux ys []
          rw [if_pos hc, if_pos rfl]
          rfl
        · by_cases hb : isLineBreakCh c = true
          · obtain ⟨pre2, hpre2⟩ := splitlinesAux_newline_head ys ([] : List Char)
            refine ⟨acc.reverse :: pre2, ?_⟩
            show (if Char.ofNat 13 = c then
                    if '\n' = '\n' then acc.reverse :: splitlinesAux ys []
                    else acc.reverse :: splitlinesAux ('\n' :: ys) []
                  else if isLineBreakCh c then acc.reverse :: splitlinesAux ('\n' :: ys) []
                  else splitlinesAux ('\n' :: ys) (c :: acc)) =
              (acc.reverse :: pre2) ++ splitlinesAux ys []
            rw [if_neg hc, if_pos hb, hpre2]
            rfl
          · obtain ⟨pre2, hpre2⟩ := splitlinesAux_newline_head ys (c :: acc)
            refine ⟨pre2, ?_⟩
            show (if Char.ofNat 13 = c then
                    if '\n' = '\n' then acc.reverse :: splitlinesAux ys []
                    else acc.reverse :: splitlinesAux ('\n' :: ys) []
                  else if isLineBreakCh c then acc.reverse :: splitlinesAux ('\n' :: ys) []
                  else splitlinesAux ('\n' :: ys) (c :: acc)) =
              pre2 ++ splitlinesAux ys []
            rw [if_neg hc, if_neg (by simpa using hb), hpre2]
      | cons d xs3 =>
        show ∃ pre, splitlinesAux (c :: d :: (xs3 ++ '\n' :: ys)) acc =
          pre ++ splitlinesAux ys []
        have hlen3 : xs3.length ≤ n := by
          have := hxs
          simp only [List.length_cons] at this
          omega
        have hlen2 : (d :: xs3).length ≤ n := by
          have := hxs
          simp only [List.length_cons] at this ⊢
          omega
        by_cases hc : Char.ofNat 13 = c
        · by_cases hd : d = '\n'
          · obtain ⟨pre2, hpre2⟩ := ih xs3 hlen3 ([] : List Char)
            refine ⟨acc.reverse :: pre2, ?_⟩
            show (if Char.ofNat 13 = c then
                    if d = '\n' then acc.reverse :: splitlinesAux (xs3 ++ '\n' :: ys) []
                    else acc.reverse :: splitlinesAux (d :: (xs3 ++ '\n' :: ys)) []
                  else if isLineBreakCh c then
                    acc.reverse :: splitlinesAux (d :: (xs3 ++ '\n' :: ys)) []
                  else splitlinesAux (d :: (xs3 ++ '\n' :: ys)) (c :: acc)) =
              (acc.reverse :: pre2) ++ splitlinesAux ys []
            rw [if_pos hc, if_pos hd, hpre2]
            rfl
          · obtain ⟨pre2, hpre2⟩ := ih (d :: xs3) hlen2 ([] : List Char)
            refine ⟨acc.reverse :: pre2, ?_⟩
            show (if Char.ofNat 13 = c then
                    if d = '\n' then acc.reverse :: splitlinesAux (xs3 ++ '\n' :: ys) []
                    else acc.reverse :: splitlinesAux (d :: (xs3 ++ '\n' :: ys)) []
                  else if isLineBreakCh c then
                    acc.reverse :: splitlinesAux (d :: (xs3 ++ '\n' :: ys)) []
                  else splitlinesAux (d :: (xs3 ++ '\n' :: ys)) (c :: acc)) =
              (acc.reverse :: pre2) ++ splitlinesAux ys []
            rw [if_pos hc, if_neg hd]
            rw [show d :: (xs3 ++ '\n' :: ys) = (d :: xs3) ++ '\n' :: ys from rfl, hpre2]
            rfl
        · by_cases hb : isLineBreakCh c = true
          · obtain ⟨pre2, hpre2⟩ := ih (d :: xs3) hlen2 ([] : List Char)
            refine ⟨acc.reverse :: pre2, ?_⟩
            show (if Char.ofNat 13 = c then
                    if d = '\n' then acc.reverse :: splitlinesAux (xs3 ++ '\n' :: ys) []
                    else acc.reverse :: splitlinesAux (d :: (xs3 ++ '\n' :: ys)) []
                  else if isLineBreakCh c then
                    acc.reverse :: splitlinesAux (d :: (xs3 ++ '\n' :: ys)) []
                  else splitlinesAux (d :: (xs3 ++ '\n' :: ys)) (c :: acc)) =
              (acc.reverse :: pre2) ++ splitlinesAux ys []
            rw [if_neg hc, if_pos hb]
            rw [show d :: (xs3 ++ '\n' :: ys) = (d :: xs3) ++ '\n' :: ys from rfl, hpre2]
            rfl
          · obtain ⟨pre2, hpre2⟩ := ih (d :: xs3) hlen2 (c :: acc)
            refine ⟨pre2, ?_⟩
            show (if Char.ofNat 13 = c then
                    if d = '\n' then acc.reverse :: splitlinesAux (xs3 ++ '\n' :: ys) []
                    else acc.reverse :: splitlinesAux (d :: (xs3 ++ '\n' :: ys)) []
                  else if isLineBreakCh c then
                    acc.reverse :: splitlinesAux (d :: (xs3 ++ '\n' :: ys)) []
                  else splitlinesAux (d :: (xs3 ++ '\n' :: ys)) (c :: acc)) =
              pre2 ++ splitlinesAux ys []
            rw [if_neg hc, if_neg (by simpa using hb)]
            rw [show d :: (xs3 ++ '\n' :: ys) = (d :: xs3) ++ '\n' :: ys from rfl, hpre2]

theorem splitlines_append_newline (xs ys : List Char) :
    ∃ pre, splitlines (xs ++ '\n' :: ys) = pre ++ splitlinesAux ys [] :=
  splitlinesAux_append_newline ys xs.length xs (Nat.le_refl _) []


/-! ### The post-processing steps do not move keys that are not
introduction-like. -/

theorem olookup_renameLoop_ne {o : Outline} {k : String}
    (hk : isSubL introSub (lowerL k.toList) = false) :
    olookup (renameLoop o) k = olookup o k := by
  have hkintro : k ≠ "Introduction" := by
    intro hc
    rw [hc] at hk
    exact absurd hk (by decide)
  induction o with
  | nil => rfl
  | cons q rest ih =>
    obtain ⟨a, b⟩ := q
    unfold renameLoop
    split
    case isTrue ha =>
      have hak : a ≠ k := by
        intro hc
        rw [hc] at ha
        rw [hk] at ha
        exact Bool.false_ne_true ha
      rw [olookup_cons, if_neg (by simpa using hak)]
      cases hres : olookup rest k with
      | some w => rw [olookup_append_of_some _ hres]
      | none =>
        rw [olookup_append_of_none _ hres, olookup_cons,
          if_neg (by simpa using (fun hc => hkintro hc.symm : ¬ "Introduction" = k))]
        rfl
    case isFalse ha =>
      rw [olookup_cons, olookup_cons]
      by_cases hak : a = k
      · rw [if_pos (by simpa using hak), if_pos (by simpa using hak)]
      · rw [if_neg (by simpa using hak), if_neg (by simpa using hak)]
        exact ih

theorem olookup_renameIntroSection_ne {o : Outline} {k : String}
    (hk : isSubL introSub (lowerL k.toList) = false) :
    olookup (renameIntroSection o) k = olookup o k := by
  unfold renameIntroSection
  split
  · exact olookup_renameLoop_ne hk
  · rfl

theorem olookup_filter_intro {o : Outline} {k : String} (hk : k ≠ "Introduction") :
    olookup (o.filter fun p => decide (p.1 ≠ "Introduction")) k = olookup o k := by
  induction o with
  | nil => rfl
  | cons p rest ih =>
    rw [List.filter_cons]
    by_cases hpi : p.1 = "Introduction"
    · rw [if_neg (by simpa using hpi), olookup_cons,
        if_neg (fun hc => hk (by rw [← hc]; exact hpi))]
      exact ih
    · rw [if_pos (by simpa using hpi), olookup_cons, olookup_cons]
      by_cases hpk : p.1 = k
      · rw [if_pos hpk, if_pos hpk]
      · rw [if_neg hpk, if_neg hpk]
        exact ih

theorem olookup_reorderIntroFirst_ne {o : Outline} {k : String}
    (hk : k ≠ "Introduction") :
    olookup (reorderIntroFirst o) k = olookup o k := by
  unfold reorderIntroFirst
  split
  case h_1 v hv =>
    rw [olookup_cons, if_neg (by simpa using (fun hc => hk hc.symm : ¬ "Introduction" = k))]
    exact olookup_filter_intro hk
  case h_2 => rfl

/-- Claim C2: whatever text precedes it, an input ending in the lines
`**Foo**`, `- a`, `- b` (the section `Foo` being the last section, with
exactly those two content lines) parses to an outline that maps `"Foo"`
to exactly the two level-0 bullets `a` and `b`, in that order. -/
theorem spec_C2_section_bullets (s : String) :
    olookup (parse_llm_output_to_outline (s ++ "\n**Foo**\n- a\n- b")).2 "Foo" =
      some [⟨"a", 0⟩, ⟨"b", 0⟩] := by
  have htl : (s ++ "\n**Foo**\n- a\n- b").toList =
      s.toList ++ '\n' :: "**Foo**\n- a\n- b".toList := by
    show (s ++ "\n**Foo**\n- a\n- b").data = s.data ++ '\n' :: "**Foo**\n- a\n- b".data
    rw [String.data_append]
  obtain ⟨pre, hpre⟩ := splitlines_append_newline s.toList "**Foo**\n- a\n- b".toList
  have hsuffix : splitlinesAux "**Foo**\n- a\n- b".toList [] =
      ["**Foo**".toList, "- a".toList, "- b".toList] := by decide
  rw [hsuffix] at hpre
  show olookup (reorderIntroFirst (renameIntroSection (flushState
      (runLines (splitlines (s ++ "\n**Foo**\n- a\n- b").toList) ⟨none, [], []⟩)))) "Foo" =
    some [⟨"a", 0⟩, ⟨"b", 0⟩]
  rw [htl, hpre, runLines_append]
  have h1 : ∀ st : PState, runLines ["**Foo**".toList, "- a".toList, "- b".toList] st =
      ⟨some "Foo", ["- a".toList, "- b".toList], flushState st⟩ := fun st => rfl
  rw [h1]
  have h4 : flushState (⟨some "Foo", ["- a".toList, "- b".toList],
      flushState (runLines pre ⟨none, [], []⟩)⟩ : PState) =
      dictInsert (flushState (runLines pre ⟨none, [], []⟩)) "Foo" [⟨"a", 0⟩, ⟨"b", 0⟩] := rfl
  rw [h4]
  rw [olookup_reorderIntroFirst_ne (by decide),
    olookup_renameIntroSection_ne (by decide),
    olookup_dictInsert_self]


/-! ### The rename step, characterised when exactly one key is
introduction-like. -/

theorem olookup_decomp {o : Outline} {k : String} {v : List Bullet}
    (h : olookup o k = some v) :
    ∃ pre suf, o = pre ++ (k, v) :: suf ∧ ∀ p ∈ pre, p.1 ≠ k := by
  induction o with
  | nil => exact absurd h (by simp [olookup])
  | cons p rest ih =>
    rw [olookup_cons] at h
    by_cases hp : p.1 = k
    · rw [if_pos hp] at h
      have hv : p.2 = v := by injection h
      have hpe : p = (k, v) := by
        obtain ⟨a, b⟩ := p
        simp only at hp hv
        rw [hp, hv]
      exact ⟨[], rest, by rw [hpe]; rfl, by simp⟩
    · rw [if_neg hp] at h
      rcases ih h with ⟨pre, suf, hde, hpre⟩
      refine ⟨p :: pre, suf, by rw [hde]; rfl, ?_⟩
      intro q hq
      rcases List.mem_cons.mp hq with h1 | h2
      · rw [h1]; exact hp
      · exact hpre q h2

theorem renameLoop_first {suf : Outline} {k0 : String} {v : List Bullet}
    (hk0 : isSubL introSub (lowerL k0.toList) = true) :
    ∀ pre : Outline, (∀ p ∈ pre, isSubL introSub (lowerL p.1.toList) = false) →
      renameLoop (pre ++ (k0, v) :: suf) = (pre ++ suf) ++ [("Introduction", v)] := by
  intro pre
  induction pre with
  | nil =>
    intro _
    show renameLoop ((k0, v) :: suf) = suf ++ [("Introduction", v)]
    unfold renameLoop
    rw [if_pos hk0]
  | cons p pre0 ih =>
    intro hpre
    obtain ⟨a, b⟩ := p
    have hp : isSubL introSub (lowerL a.data) = false :=
      hpre (a, b) (List.mem_cons_self _ _)
    show renameLoop ((a, b) :: (pre0 ++ (k0, v) :: suf)) =
      ((a, b) :: (pre0 ++ suf)) ++ [("Introduction", v)]
    unfold renameLoop
    rw [if_neg (by simp [hp])]
    rw [ih (fun q hq => hpre q (List.mem_cons_of_mem _ hq))]
    rfl

/-- Claim C3 (amended): when `**Background Introduction**` is the only
section whose title loosely matches `introduction` and no exact
`"Introduction"` key exists, the post-processing renames it to
`"Introduction"` and moves it to the front, preserving the relative
order of all other sections. -/
theorem spec_C3_amended (o : Outline) (v : List Bullet)
    (hnoexact : olookup o "Introduction" = none)
    (hbi : olookup o "Background Introduction" = some v)
    (honly : ∀ p ∈ o, p.1 ≠ "Background Introduction" →
      isSubL introSub (lowerL p.1.toList) = false) :
    ∃ pre suf, o = pre ++ ("Background Introduction", v) :: suf ∧
      reorderIntroFirst (renameIntroSection o) =
        ("Introduction", v) :: (pre ++ suf) := by
  rcases olookup_decomp hbi with ⟨pre, suf, hde, hprek⟩
  refine ⟨pre, suf, hde, ?_⟩
  have hbmem : ("Background Introduction", v) ∈ o := mem_of_olookup_eq_some hbi
  have hcond : (decide (olookup o "Introduction" = none) &&
      o.any fun p => isSubL introSub (lowerL p.1.toList)) = true := by
    rw [Bool.and_eq_true]
    refine ⟨decide_eq_true hnoexact,
      List.any_eq_true.mpr ⟨("Background Introduction", v), hbmem, ?_⟩⟩
    show isSubL introSub (lowerL "Background Introduction".toList) = true
    decide
  have hren : renameIntroSection o = renameLoop o := by
    unfold renameIntroSection
    rw [if_pos hcond]
  have hpre2 : ∀ p ∈ pre, isSubL introSub (lowerL p.1.toList) = false := by
    intro p hp
    exact honly p (by rw [hde]; exact List.mem_append_left _ hp) (hprek p hp)
  have hloop : renameLoop o = (pre ++ suf) ++ [("Introduction", v)] := by
    rw [hde]
    exact renameLoop_first (by decide) pre hpre2
  rw [hren, hloop]
  have hkeysne : ∀ p ∈ pre ++ suf, p.1 ≠ "Introduction" := by
    intro p hp
    apply keys_ne_of_olookup_eq_none hnoexact
    rw [hde]
    rcases List.mem_append.mp hp with h1 | h2
    · exact List.mem_append_left _ h1
    · exact List.mem_append_right _ (List.mem_cons_of_mem _ h2)
  have hlook : olookup ((pre ++ suf) ++ [("Introduction", v)]) "Introduction" = some v := by
    rw [olookup_append_of_none _ (olookup_eq_none_of_keys hkeysne), olookup_cons]
    simp
  unfold reorderIntroFirst
  rw [hlook]
  show ("Introduction", v) ::
      (((pre ++ suf) ++ [("Introduction", v)]).filter fun p => decide (p.1 ≠ "Introduction")) =
    ("Introduction", v) :: (pre ++ suf)
  have hfilter : ((pre ++ suf) ++ [("Introduction", v)]).filter
      (fun p => decide (p.1 ≠ "Introduction")) = pre ++ suf := by
    rw [List.filter_append]
    have h1 : (pre ++ suf).filter (fun p => decide (p.1 ≠ "Introduction")) = pre ++ suf :=
      List.filter_eq_self.mpr (fun a ha => decide_eq_true (hkeysne a ha))
    have h2 : ([("Introduction", v)] : Outline).filter
        (fun p => decide (p.1 ≠ "Introduction")) = [] := by simp
    rw [h1, h2, List.append_nil]
  rw [hfilter]

/-- Witness for C3 at a two-section outline. -/
theorem spec_C3_witness :
    (olookup [("Background Introduction", [⟨"y", 0⟩]), ("Methods", [⟨"m", 0⟩])]
      "Introduction" = none) ∧
    (olookup [("Background Introduction", [⟨"y", 0⟩]), ("Methods", [⟨"m", 0⟩])]
      "Background Introduction" = some [⟨"y", 0⟩]) ∧
    (∃ pre suf,
      ([("Background Introduction", [⟨"y", 0⟩]), ("Methods", [⟨"m", 0⟩])] : Outline) =
        pre ++ ("Background Introduction", [⟨"y", 0⟩]) :: suf ∧
      reorderIntroFirst (renameIntroSection
          [("Background Introduction", [⟨"y", 0⟩]), ("Methods", [⟨"m", 0⟩])]) =
        ("Introduction", [⟨"y", 0⟩]) :: (pre ++ suf)) :=
  ⟨by decide, by decide,
   spec_C3_amended [("Background Introduction", [⟨"y", 0⟩]), ("Methods", [⟨"m", 0⟩])]
     [⟨"y", 0⟩] (by decide) (by decide) (by decide)⟩


/-! ### A header with no content contributes no outline entry. -/

theorem stepLine_header {st : PState} {raw : List Char} {t : String}
    (hh : matchSlideTitle (stripL raw) = some t) :
    stepLine st raw = ⟨some t, [], flushState st⟩ := by
  have hne : ¬ stripL raw = [] := by
    intro h0
    rw [h0] at hh
    have hcontra : (none : Option String) = some t := hh
    exact Option.noConfusion hcontra
  unfold stepLine
  rw [if_neg hne, hh]

theorem flushState_nil_content (cur : Option String) (o : Outline) :
    flushState ⟨cur, [], o⟩ = o := by
  cases cur with
  | none => rfl
  | some t =>
    unfold flushState
    dsimp only
    split
    case isTrue hcond =>
      simp only [Bool.and_eq_true, decide_eq_true_eq] at hcond
      exact absurd rfl hcond.2
    case isFalse => rfl

theorem stepLine_blank {st : PState} {raw : List Char}
    (hb : isBlankLine raw = true) : stepLine st raw = st := by
  unfold stepLine
  rw [if_pos (of_decide_eq_true hb)]

theorem runLines_blanks {bls : List (List Char)} {st : PState}
    (hb : ∀ l ∈ bls, isBlankLine l = true) : runLines bls st = st := by
  induction bls with
  | nil => rfl
  | cons l rest ih =>
    rw [runLines_cons, stepLine_blank (hb l (by simp))]
    exact ih (fun q hq => hb q (by simp [hq]))

theorem flushState_keys_ne {st : PState} {H : String}
    (hout : ∀ p ∈ st.outline, p.1 ≠ H) (hcur : st.current ≠ some H) :
    ∀ p ∈ flushState st, p.1 ≠ H := by
  obtain ⟨cur, cont, outl⟩ := st
  cases cur with
  | none => exact hout
  | some t =>
    unfold flushState
    dsimp only
    split
    · intro p hp
      rcases mem_dictInsert hp with h1 | h2
      · exact hout p h1
      · rw [h2]
        intro hc
        exact hcur (congrArg some hc)
    · exact hout

theorem stepLine_not_header_inv {st : PState} {H : String} (raw : List Char)
    (hout : ∀ p ∈ st.outline, p.1 ≠ H) (hcur : st.current ≠ some H)
    (hraw : headerTitle raw ≠ some H) :
    (∀ p ∈ (stepLine st raw).outline, p.1 ≠ H) ∧ (stepLine st raw).current ≠ some H := by
  unfold stepLine
  split
  · exact ⟨hout, hcur⟩
  · split
    case h_1 t ht =>
      refine ⟨flushState_keys_ne hout hcur, ?_⟩
      intro hc
      injection hc with hc2
      apply hraw
      show matchSlideTitle (stripL raw) = some H
      rw [ht, hc2]
    case h_2 =>
      split
      · exact ⟨hout, hcur⟩
      · exact ⟨hout, hcur⟩

theorem runLines_not_header_inv (lines : List (List Char)) (st : PState) {H : String}
    (hout : ∀ p ∈ st.outline, p.1 ≠ H) (hcur : st.current ≠ some H)
    (hlines : ∀ l ∈ lines, headerTitle l ≠ some H) :
    (∀ p ∈ (runLines lines st).outline, p.1 ≠ H) ∧ (runLines lines st).current ≠ some H := by
  induction lines generalizing st with
  | nil => exact ⟨hout, hcur⟩
  | cons l rest ih =>
    rw [runLines_cons]
    obtain ⟨h1, h2⟩ := stepLine_not_header_inv l hout hcur (hlines l (by simp))
    exact ih _ h1 h2 (fun q hq => hlines q (by simp [hq]))

/-- Claim C10 (amended): a section header that is followed — up to blank
lines — by another section header or by the end of the input contributes
no entry; if moreover no other line of the input is a header with the
same title and the title does not loosely match `introduction` (which the
rename step could recreate), the title is absent from the returned
outline. -/
theorem spec_C10_amended (raw : String) (pre post : List (List Char))
    (hl : List Char) (H : String)
    (hsplit : splitlines raw.toList = pre ++ hl :: post)
    (hhead : headerTitle hl = some H)
    (hpre : ∀ l ∈ pre, headerTitle l ≠ some H)
    (hpost : ∀ l ∈ post, headerTitle l ≠ some H)
    (hnext : post.dropWhile (fun l => isBlankLine l) = [] ∨
      ∃ l2 rest2 H2, post.dropWhile (fun l => isBlankLine l) = l2 :: rest2 ∧
        headerTitle l2 = some H2)
    (hnotintro : isSubL introSub (lowerL H.toList) = false) :
    H ∉ (parse_llm_output_to_outline raw).2.map Prod.fst := by
  have hHintro : H ≠ "Introduction" := by
    intro hc
    rw [hc] at hnotintro
    exact absurd hnotintro (by decide)
  -- the state after the prefix
  obtain ⟨hout1, hcur1⟩ := runLines_not_header_inv pre ⟨none, [], []⟩
    (by simp) (by simp) hpre
  -- the header line opens section H with empty content
  have hstep : stepLine (runLines pre ⟨none, [], []⟩) hl =
      ⟨some H, [], flushState (runLines pre ⟨none, [], []⟩)⟩ := stepLine_header hhead
  have hout2 : ∀ p ∈ flushState (runLines pre ⟨none, [], []⟩), p.1 ≠ H :=
    flushState_keys_ne hout1 hcur1
  -- the blank lines after the header change nothing
  have hblanks : ∀ l ∈ post.takeWhile (fun l => isBlankLine l), isBlankLine l = true :=
    fun l hlmem => List.mem_takeWhile_imp hlmem
  have hpostsplit : post = post.takeWhile (fun l => isBlankLine l) ++
      post.dropWhile (fun l => isBlankLine l) := (List.takeWhile_append_dropWhile _ _).symm
  -- the flushed outline after the whole loop has no H key
  have hfinal : ∀ p ∈ flushState (runLines (splitlines raw.toList) ⟨none, [], []⟩),
      p.1 ≠ H := by
    rw [hsplit, runLines_append, runLines_cons, hstep, hpostsplit, runLines_append,
      runLines_blanks hblanks]
    rcases hnext with hend | ⟨l2, rest2, H2, hd, hh2⟩
    · rw [hend, runLines_nil, flushState_nil_content]
      exact hout2
    · have hl2post : l2 ∈ post := by
        refine (List.dropWhile_suffix (fun l => isBlankLine l)).subset ?_
        rw [hd]
        exact List.mem_cons_self _ _
      have hrest2post : ∀ l ∈ rest2, l ∈ post := by
        intro l hlm
        refine (List.dropWhile_suffix (fun l => isBlankLine l)).subset ?_
        rw [hd]
        exact List.mem_cons_of_mem _ hlm
      rw [hd, runLines_cons, stepLine_header hh2, flushState_nil_content]
      have hH2 : some H2 ≠ some H := by
        intro hc
        injection hc with hc2
        exact hpost l2 hl2post (by rw [hh2, hc2])
      obtain ⟨ho, hc⟩ := runLines_not_header_inv rest2
        ⟨some H2, [], flushState (runLines pre ⟨none, [], []⟩)⟩ hout2 hH2
        (fun q hq => hpost q (hrest2post q hq))
      exact flushState_keys_ne ho hc
  -- the post-processing cannot add an H key either
  intro hmem
  rcases List.mem_map.mp hmem with ⟨p, hp, hpe⟩
  have hp2 : p ∈ reorderIntroFirst (renameIntroSection
      (flushState (runLines (splitlines raw.toList) ⟨none, [], []⟩))) := hp
  rcases mem_reorderIntroFirst hp2 with hp3 | hpi
  · rcases mem_renameIntroSection hp3 with hp4 | hpi
    · exact hfinal p hp4 hpe
    · exact hHintro (hpe ▸ hpi)
  · exact hHintro (hpe ▸ hpi)

/-- Witness for C10: first header immediately followed by a different
header; the empty section's title is absent. -/
theorem spec_C10_witness :
    splitlines ("**S**\n**T**\n- a" : String).toList =
      ([] : List (List Char)) ++ "**S**".toList :: ["**T**".toList, "- a".toList] ∧
    headerTitle "**S**".toList = some "S" ∧
    (∀ l ∈ (["**T**".toList, "- a".toList] : List (List Char)), headerTitle l ≠ some "S") ∧
    isSubL introSub (lowerL "S".toList) = false ∧
    "S" ∉ (parse_llm_output_to_outline "**S**\n**T**\n- a").2.map Prod.fst := by
  refine ⟨by decide, by decide, by decide, by decide, ?_⟩
  exact spec_C10_amended "**S**\n**T**\n- a" [] ["**T**".toList, "- a".toList]
    "**S**".toList "S" (by decide) (by decide) (by decide) (by decide)
    (Or.inr ⟨"**T**".toList, ["- a".toList], "T", by decide, by decide⟩) (by decide)

end PPTAgent
